import Mathlib

/-!
Verification development for the ADC/DMA temperature sampler
(`src/display_oled/display_oled.c`).

The program's arithmetic runs on 32-bit `float`; here the float constants
`3.3f`, `0.706f`, `0.001721f`, `27.0f` are modelled as the exact rationals
they denote in the source text, so every float expression becomes an exact
`ℚ` expression.  Raw ADC readings (`uint16_t`) are modelled as `ℕ` together
with upper bounds `< 2 ^ 16` where the 16-bit width matters.

The acquisition cycle (the body of `main`'s `while (true)` loop) and the
repeating-timer callback are modelled as a small-step state machine over an
explicit event log, with the timer tick and the main loop's program steps
interleaved arbitrarily.
-/

namespace DisplayOled

/-- Constant `NUM_SAMPLES = 100` — number of samples per acquisition cycle. -/
def NUM_SAMPLES : ℕ := 100

/-- Constant `UPDATE_INTERVAL_MS = 500` — the repeating-timer period in ms. -/
def UPDATE_INTERVAL_MS : ℤ := 500

/-- Model of `convert_to_celsius` from the source:
`conversion_factor = 3.3f / (1 << 12)`, `voltage = raw * conversion_factor`,
result `27.0f - (voltage - 0.706f) / 0.001721f`, with the float literals
modelled as exact rationals. -/
def convert_to_celsius (raw : ℕ) : ℚ :=
  let conversion_factor : ℚ := (33 / 10) / (2 ^ 12)
  let voltage : ℚ := (raw : ℚ) * conversion_factor
  27 - (voltage - 706 / 1000) / (1721 / 1000000)

/-- The averaging loop of the cycle:
`sum = 0.0f` then `sum += convert_to_celsius(adc_buffer[i])` for
`i = 0 .. NUM_SAMPLES-1`, modelled as a left fold over the buffer contents. -/
def cycle_sum (buf : List ℕ) : ℚ :=
  buf.foldl (fun s x => s + convert_to_celsius x) 0

/-- The reported average of a cycle: `avg_temp = sum / NUM_SAMPLES`. -/
def avg_temp (buf : List ℕ) : ℚ :=
  cycle_sum buf / (NUM_SAMPLES : ℚ)

/-! ### The DMA configuration made once before the loop -/

/-- Transfer width enumeration of the data-mover driver
(`DMA_SIZE_8 / DMA_SIZE_16 / DMA_SIZE_32`). -/
inductive DmaTransferSize
  | size8
  | size16
  | size32
  deriving DecidableEq

/-- RP2040 data-request line of the ADC (`DREQ_ADC`). -/
def DREQ_ADC : ℕ := 36

/-- Data-request value meaning an unpaced, forced transfer (`DREQ_FORCE`),
the driver default. -/
def DREQ_FORCE : ℕ := 63

/-- The per-channel configuration record of the data-mover driver. -/
structure dma_channel_config where
  transfer_data_size : DmaTransferSize
  read_increment : Bool
  write_increment : Bool
  dreq : ℕ
  deriving DecidableEq

/-- Driver default configuration: 32-bit transfers, incrementing read,
non-incrementing write, unpaced (per the SDK's documented defaults, spec
section 6 "build a default configuration"). -/
def dma_channel_get_default_config : dma_channel_config :=
  { transfer_data_size := DmaTransferSize.size32
  , read_increment := true
  , write_increment := false
  , dreq := DREQ_FORCE }

/-- Driver setter: select the transfer width. -/
def channel_config_set_transfer_data_size
    (c : dma_channel_config) (sz : DmaTransferSize) : dma_channel_config :=
  { c with transfer_data_size := sz }

/-- Driver setter: whether the source address increments. -/
def channel_config_set_read_increment
    (c : dma_channel_config) (b : Bool) : dma_channel_config :=
  { c with read_increment := b }

/-- Driver setter: whether the destination address increments. -/
def channel_config_set_write_increment
    (c : dma_channel_config) (b : Bool) : dma_channel_config :=
  { c with write_increment := b }

/-- Driver setter: bind the channel to a data-request line. -/
def channel_config_set_dreq (c : dma_channel_config) (d : ℕ) : dma_channel_config :=
  { c with dreq := d }

/-- The configuration `cfg` built in `main`, in source order:
default, then 16-bit width, then `read_increment = false`, then
`write_increment = true`, then paced by `DREQ_ADC`. -/
def cfg : dma_channel_config :=
  channel_config_set_dreq
    (channel_config_set_write_increment
      (channel_config_set_read_increment
        (channel_config_set_transfer_data_size
          dma_channel_get_default_config DmaTransferSize.size16)
        false)
      true)
    DREQ_ADC

/-- The two addresses the DMA burst connects: the fixed ADC FIFO data
register (`&adc_hw->fifo`) and the sample buffer (`adc_buffer`). -/
inductive DmaAddr
  | adcFifoReg
  | sampleBuffer
  deriving DecidableEq

/-- The arguments of the `dma_channel_configure` call made each cycle:
destination `adc_buffer`, source `&adc_hw->fifo`, count `NUM_SAMPLES`,
start immediately. -/
structure DmaConfigureCall where
  config : dma_channel_config
  write_addr : DmaAddr
  read_addr : DmaAddr
  transfer_count : ℕ
  trigger : Bool
  deriving DecidableEq

/-- The concrete `dma_channel_configure` call of the acquisition cycle. -/
def cycle_dma_configure : DmaConfigureCall :=
  { config := cfg
  , write_addr := DmaAddr.sampleBuffer
  , read_addr := DmaAddr.adcFifoReg
  , transfer_count := NUM_SAMPLES
  , trigger := true }

/-- The arguments of `adc_fifo_setup(en, dreq_en, dreq_thresh, err_in_fifo,
byte_shift)`. -/
structure AdcFifoSetupCall where
  en : Bool
  dreq_en : Bool
  dreq_thresh : ℕ
  err_in_fifo : Bool
  byte_shift : Bool
  deriving DecidableEq

/-- The concrete `adc_fifo_setup(true, true, 1, false, false)` call of the
acquisition cycle. -/
def cycle_adc_fifo_setup : AdcFifoSetupCall :=
  { en := true
  , dreq_en := true
  , dreq_thresh := 1
  , err_in_fifo := false
  , byte_shift := false }

/-! ### The main loop and timer as a small-step machine -/

/-- Observable events of one acquisition cycle, in the order the loop body
performs them. -/
inductive Ev
  | startSampling   -- flag observed true and cleared; cycle begins
  | adcFifoDrain    -- adc_fifo_drain()
  | adcRunOff       -- adc_run(false)
  | adcFifoSetupEv  -- adc_fifo_setup(true, true, 1, false, false)
  | adcRunOn        -- adc_run(true)
  | dmaStart        -- dma_channel_configure(..., true): burst armed+started
  | dmaWait         -- dma_channel_wait_for_finish_blocking returns
  | readBuffer      -- the averaging loop reads adc_buffer
  | presentOut      -- printf + display_temperature
  deriving DecidableEq

/-- The exact event sequence of one complete loop iteration, as written in
the source: drain, pause, FIFO setup, start, DMA configure+start, blocking
wait, pause, read/average, present. -/
def cycleEvents : List Ev :=
  [Ev.startSampling, Ev.adcFifoDrain, Ev.adcRunOff, Ev.adcFifoSetupEv,
   Ev.adcRunOn, Ev.dmaStart, Ev.dmaWait, Ev.adcRunOff, Ev.readBuffer,
   Ev.presentOut]

/-- Machine state: program counter of the loop body, the `timer_fired`
flag, the sample buffer `adc_buffer`, and the event log. -/
structure MachState where
  pc : ℕ
  flag : Bool
  buf : List ℕ
  log : List Ev
  deriving DecidableEq

/-- Model of `alarm_callback`: its body is `timer_fired = true; return true;`
— it sets the flag, touches nothing else, and returns `true`
("keep repeating"). -/
def alarm_callback (s : MachState) : MachState × Bool :=
  ({ s with flag := true }, true)

/-- Registration record of `add_repeating_timer_ms(UPDATE_INTERVAL_MS,
alarm_callback, NULL, &timer)`. -/
structure RepeatingTimerSetup where
  period_ms : ℤ
  deriving DecidableEq

/-- The one timer registration `main` performs. -/
def timer_registration : RepeatingTimerSetup :=
  { period_ms := UPDATE_INTERVAL_MS }

/-- One step of the main loop at its current program counter.  `pc = 0` is
the idle wait `while (!timer_fired) __wfi();` followed by the clear; each
later `pc` performs the next statement of the loop body in source order.
The DMA transfer's effect on `adc_buffer` materialises when the blocking
wait returns (`pc = 6`), with `samples` the burst the hardware delivered. -/
def main_step (samples : List ℕ) (s : MachState) : MachState :=
  if s.pc = 0 then
    if s.flag then
      { s with pc := 1, flag := false, log := s.log ++ [Ev.startSampling] }
    else s
  else if s.pc = 1 then { s with pc := 2, log := s.log ++ [Ev.adcFifoDrain] }
  else if s.pc = 2 then { s with pc := 3, log := s.log ++ [Ev.adcRunOff] }
  else if s.pc = 3 then { s with pc := 4, log := s.log ++ [Ev.adcFifoSetupEv] }
  else if s.pc = 4 then { s with pc := 5, log := s.log ++ [Ev.adcRunOn] }
  else if s.pc = 5 then { s with pc := 6, log := s.log ++ [Ev.dmaStart] }
  else if s.pc = 6 then
    { s with pc := 7, buf := samples, log := s.log ++ [Ev.dmaWait] }
  else if s.pc = 7 then { s with pc := 8, log := s.log ++ [Ev.adcRunOff] }
  else if s.pc = 8 then { s with pc := 9, log := s.log ++ [Ev.readBuffer] }
  else if s.pc = 9 then { s with pc := 0, log := s.log ++ [Ev.presentOut] }
  else s

/-- An interleaving action: either the hardware timer fires (running
`alarm_callback`), or the main loop makes one step (with `samples` the
data the DMA would deliver if that step completes the transfer). -/
inductive Act
  | tick
  | mstep (samples : List ℕ)
  deriving DecidableEq

/-- Apply one action to the machine state. -/
def step (s : MachState) : Act → MachState
  | Act.tick => (alarm_callback s).1
  | Act.mstep samples => main_step samples s

/-- The initial machine state: idle, flag clear, empty buffer and log. -/
def init : MachState := { pc := 0, flag := false, buf := [], log := [] }

/-- Run the machine from `init` over an arbitrary interleaving of actions. -/
def run (acts : List Act) : MachState := acts.foldl step init

/-- The log always consists of some number of complete cycles, each in the
exact source order `cycleEvents`, followed by the prefix of the current
partial cycle determined by the program counter. -/
def CycleLogShape (s : MachState) : Prop :=
  s.pc ≤ 9 ∧
    ∃ n, s.log = (List.replicate n cycleEvents).flatten ++ cycleEvents.take s.pc

/-- Buffer-ownership property: in every prefix of the log (i.e. at every
point in time), the number of buffer reads never exceeds the number of
completed transfer waits — no read of the sample buffer occurs before the
transfer-completion wait has returned. -/
def ReadAfterWait (s : MachState) : Prop :=
  ∀ pre, pre <+: s.log → pre.count Ev.readBuffer ≤ pre.count Ev.dmaWait

/-! ## Lemmas and theorems -/

/-- The fold accumulates exactly the sum of the converted samples. -/
lemma cycle_sum_eq_map_sum (buf : List ℕ) :
    cycle_sum buf = (buf.map convert_to_celsius).sum := by
  have h : ∀ (l : List ℕ) (a : ℚ),
      l.foldl (fun s x => s + convert_to_celsius x) a
        = a + (l.map convert_to_celsius).sum := by
    intro l
    induction l with
    | nil => intro a; simp
    | cons x xs ih =>
      intro a
      simp [List.foldl_cons, ih, add_assoc]
  simpa using h buf 0

/-- `cycle_sum` distributes over append. -/
lemma cycle_sum_append (l1 l2 : List ℕ) :
    cycle_sum (l1 ++ l2) = cycle_sum l1 + cycle_sum l2 := by
  simp [cycle_sum_eq_map_sum]

/-- `convert_to_celsius` as a closed affine expression in `raw`. -/
lemma convert_to_celsius_closed (raw : ℕ) :
    convert_to_celsius raw
      = 27 - ((raw : ℚ) * ((33 / 10) / 4096) - 706 / 1000) / (1721 / 1000000) := by
  simp [convert_to_celsius]
  norm_num

/-- Strict antitonicity of the conversion: a larger raw reading gives a
strictly smaller temperature. -/
lemma convert_strict_anti {r1 r2 : ℕ} (h : r1 < r2) :
    convert_to_celsius r2 < convert_to_celsius r1 := by
  have hc : ((r1 : ℚ)) < (r2 : ℚ) := by exact_mod_cast h
  simp only [convert_to_celsius]
  rw [sub_lt_sub_iff_left,
    div_lt_div_iff_of_pos_right (by norm_num : (0:ℚ) < 1721/1000000)]
  have : (r1 : ℚ) * (33 / 10 / 2 ^ 12) < (r2 : ℚ) * (33 / 10 / 2 ^ 12) := by
    apply mul_lt_mul_of_pos_right hc
    norm_num
  linarith

/-- A buffer of `NUM_SAMPLES` identical raw values averages to the
conversion of that value. -/
lemma avg_temp_replicate (r : ℕ) :
    avg_temp (List.replicate NUM_SAMPLES r) = convert_to_celsius r := by
  rw [avg_temp, cycle_sum_eq_map_sum, List.map_replicate, List.sum_replicate,
    nsmul_eq_mul]
  exact mul_div_cancel_left₀ _ (by norm_num [NUM_SAMPLES])

/-- Sum of an alternating buffer of `n` pairs `[r1, r2]`. -/
lemma cycle_sum_flatten_replicate (n : ℕ) (r1 r2 : ℕ) :
    cycle_sum ((List.replicate n [r1, r2]).flatten)
      = n * (convert_to_celsius r1 + convert_to_celsius r2) := by
  induction n with
  | zero => simp [cycle_sum]
  | succ k ih =>
    rw [List.replicate_succ, List.flatten_cons, cycle_sum_append, ih]
    have : cycle_sum [r1, r2] = convert_to_celsius r1 + convert_to_celsius r2 := by
      simp [cycle_sum]
    rw [this]
    push_cast
    ring

/-- Every nonempty list of rationals attains a minimum. -/
lemma exists_le_min (l : List ℚ) (hne : l ≠ []) :
    ∃ m ∈ l, ∀ y ∈ l, m ≤ y := by
  induction l with
  | nil => exact absurd rfl hne
  | cons x xs ih =>
    by_cases hxs : xs = []
    · subst hxs
      exact ⟨x, by simp, by simp⟩
    · obtain ⟨m, hmem, hmin⟩ := ih hxs
      by_cases hxm : x ≤ m
      · refine ⟨x, by simp, ?_⟩
        intro y hy
        rcases List.mem_cons.mp hy with rfl | hy
        · exact le_refl y
        · exact le_trans hxm (hmin y hy)
      · refine ⟨m, by simp [hmem], ?_⟩
        intro y hy
        rcases List.mem_cons.mp hy with rfl | hy
        · exact le_of_not_le hxm
        · exact hmin y hy

/-- Every nonempty list of rationals attains a maximum. -/
lemma exists_max_le (l : List ℚ) (hne : l ≠ []) :
    ∃ m ∈ l, ∀ y ∈ l, y ≤ m := by
  induction l with
  | nil => exact absurd rfl hne
  | cons x xs ih =>
    by_cases hxs : xs = []
    · subst hxs
      exact ⟨x, by simp, by simp⟩
    · obtain ⟨m, hmem, hmax⟩ := ih hxs
      by_cases hxm : m ≤ x
      · refine ⟨x, by simp, ?_⟩
        intro y hy
        rcases List.mem_cons.mp hy with rfl | hy
        · exact le_refl y
        · exact le_trans (hmax y hy) hxm
      · refine ⟨m, by simp [hmem], ?_⟩
        intro y hy
        rcases List.mem_cons.mp hy with rfl | hy
        · exact le_of_not_le hxm
        · exact hmax y hy

/-- A uniform lower bound on the entries bounds the sum from below. -/
lemma mul_length_le_sum (l : List ℚ) (a : ℚ) (h : ∀ y ∈ l, a ≤ y) :
    a * l.length ≤ l.sum := by
  induction l with
  | nil => simp
  | cons x xs ih =>
    have hx : a ≤ x := h x (by simp)
    have hxs : a * xs.length ≤ xs.sum := ih (fun y hy => h y (by simp [hy]))
    simp only [List.sum_cons, List.length_cons]
    push_cast
    nlinarith

/-- A uniform upper bound on the entries bounds the sum from above. -/
lemma sum_le_mul_length (l : List ℚ) (b : ℚ) (h : ∀ y ∈ l, y ≤ b) :
    l.sum ≤ b * l.length := by
  induction l with
  | nil => simp
  | cons x xs ih =>
    have hx : x ≤ b := h x (by simp)
    have hxs : xs.sum ≤ b * xs.length := ih (fun y hy => h y (by simp [hy]))
    simp only [List.sum_cons, List.length_cons]
    push_cast
    nlinarith

/-- A prefix of `l ++ [e]` is a prefix of `l` or the whole list. -/
lemma prefix_snoc {α : Type} (pre l : List α) (e : α)
    (h : pre <+: l ++ [e]) : pre <+: l ∨ pre = l ++ [e] := by
  obtain ⟨t, ht⟩ := h
  rcases List.eq_nil_or_concat t with rfl | ⟨t', x, rfl⟩
  · right
    simpa using ht
  · left
    have hx : pre ++ t' ++ [x] = l ++ [e] := by
      simpa [List.concat_eq_append, List.append_assoc] using ht
    have h3 : pre ++ t' = l := by
      have := congrArg List.dropLast hx
      simpa using this
    exact ⟨t', h3⟩

/-- Appending one event to the log preserves the per-prefix count
property, given the count inequality for the extended full log. -/
lemma readAfterWait_snoc (log : List Ev) (e : Ev)
    (h2 : ∀ pre, pre <+: log → pre.count Ev.readBuffer ≤ pre.count Ev.dmaWait)
    (hend : (log ++ [e]).count Ev.readBuffer ≤ (log ++ [e]).count Ev.dmaWait) :
    ∀ pre, pre <+: log ++ [e] → pre.count Ev.readBuffer ≤ pre.count Ev.dmaWait := by
  intro pre hpre
  rcases prefix_snoc pre log e hpre with hp | rfl
  · exact h2 pre hp
  · exact hend

/-- The three-part machine invariant: log shape, read-after-wait on every
prefix, and strictness of the wait/read count in the window between the
blocking wait's return and the buffer read.  Preserved by every action. -/
lemma step_preserves_inv (s : MachState) (a : Act)
    (h1 : CycleLogShape s) (h2 : ReadAfterWait s)
    (h3 : s.pc = 7 ∨ s.pc = 8 →
      s.log.count Ev.readBuffer < s.log.count Ev.dmaWait) :
    CycleLogShape (step s a) ∧ ReadAfterWait (step s a) ∧
      ((step s a).pc = 7 ∨ (step s a).pc = 8 →
        (step s a).log.count Ev.readBuffer < (step s a).log.count Ev.dmaWait) := by
  obtain ⟨hpc9, n, hlog⟩ := h1
  cases a with
  | tick => exact ⟨⟨hpc9, n, hlog⟩, h2, h3⟩
  | mstep bs =>
    obtain ⟨pc, flag, buf, log⟩ := s
    have hpc : pc ≤ 9 := hpc9
    have hl : log = (List.replicate n cycleEvents).flatten ++ cycleEvents.take pc :=
      hlog
    have hfull : log.count Ev.readBuffer ≤ log.count Ev.dmaWait :=
      h2 log (List.prefix_refl _)
    clear hpc9 hlog
    interval_cases pc
    · -- pc = 0: idle wait / cycle start
      cases flag with
      | false =>
        norm_num [step, main_step]
        exact ⟨⟨by norm_num, n, hl⟩, fun pre hpre => h2 pre hpre⟩
      | true =>
        norm_num [step, main_step]
        refine ⟨⟨by norm_num, n, ?_⟩, ?_⟩
        · simp [hl, cycleEvents, List.append_assoc]
        · intro pre hpre
          rcases prefix_snoc pre log _ hpre with hp | rfl
          · exact h2 pre hp
          · simp only [List.count_append, List.count_cons, List.count_nil]
            simp
            omega
    · -- pc = 1: adc_fifo_drain
      norm_num [step, main_step]
      refine ⟨⟨by norm_num, n, ?_⟩, ?_⟩
      · simp [hl, cycleEvents, List.append_assoc]
      · intro pre hpre
        rcases prefix_snoc pre log _ hpre with hp | rfl
        · exact h2 pre hp
        · simp only [List.count_append, List.count_cons, List.count_nil]
          simp
          omega
    · -- pc = 2: adc_run(false)
      norm_num [step, main_step]
      refine ⟨⟨by norm_num, n, ?_⟩, ?_⟩
      · simp [hl, cycleEvents, List.append_assoc]
      · intro pre hpre
        rcases prefix_snoc pre log _ hpre with hp | rfl
        · exact h2 pre hp
        · simp only [List.count_append, List.count_cons, List.count_nil]
          simp
          omega
    · -- pc = 3: adc_fifo_setup
      norm_num [step, main_step]
      refine ⟨⟨by norm_num, n, ?_⟩, ?_⟩
      · simp [hl, cycleEvents, List.append_assoc]
      · intro pre hpre
        rcases prefix_snoc pre log _ hpre with hp | rfl
        · exact h2 pre hp
        · simp only [List.count_append, List.count_cons, List.count_nil]
          simp
          omega
    · -- pc = 4: adc_run(true)
      norm_num [step, main_step]
      refine ⟨⟨by norm_num, n, ?_⟩, ?_⟩
      · simp [hl, cycleEvents, List.append_assoc]
      · intro pre hpre
        rcases prefix_snoc pre log _ hpre with hp | rfl
        · exact h2 pre hp
        · simp only [List.count_append, List.count_cons, List.count_nil]
          simp
          omega
    · -- pc = 5: dma_channel_configure(..., true)
      norm_num [step, main_step]
      refine ⟨⟨by norm_num, n, ?_⟩, ?_⟩
      · simp [hl, cycleEvents, List.append_assoc]
      · intro pre hpre
        rcases prefix_snoc pre log _ hpre with hp | rfl
        · exact h2 pre hp
        · simp only [List.count_append, List.count_cons, List.count_nil]
          simp
          omega
    · -- pc = 6: the blocking wait returns
      norm_num [step, main_step]
      refine ⟨⟨by norm_num, n, ?_⟩, ?_, ?_⟩
      · simp [hl, cycleEvents, List.append_assoc]
      · intro pre hpre
        rcases prefix_snoc pre log _ hpre with hp | rfl
        · exact h2 pre hp
        · simp only [List.count_append, List.count_cons, List.count_nil]
          simp
          omega
      · simp only [List.count_append, List.count_cons, List.count_nil]
        simp
        omega
    · -- pc = 7: adc_run(false) after the wait
      have hst : log.count Ev.readBuffer < log.count Ev.dmaWait :=
        h3 (Or.inl rfl)
      norm_num [step, main_step]
      refine ⟨⟨by norm_num, n, ?_⟩, ?_, ?_⟩
      · simp [hl, cycleEvents, List.append_assoc]
      · intro pre hpre
        rcases prefix_snoc pre log _ hpre with hp | rfl
        · exact h2 pre hp
        · simp only [List.count_append, List.count_cons, List.count_nil]
          simp
          omega
      · simp only [List.count_append, List.count_cons, List.count_nil]
        simp
        omega
    · -- pc = 8: the averaging loop reads the buffer
      have hst : log.count Ev.readBuffer < log.count Ev.dmaWait :=
        h3 (Or.inr rfl)
      norm_num [step, main_step]
      refine ⟨⟨by norm_num, n, ?_⟩, ?_⟩
      · simp [hl, cycleEvents, List.append_assoc]
      · intro pre hpre
        rcases prefix_snoc pre log _ hpre with hp | rfl
        · exact h2 pre hp
        · simp only [List.count_append, List.count_cons, List.count_nil]
          simp
          omega
    · -- pc = 9: printf + display; the cycle completes
      norm_num [step, main_step]
      refine ⟨⟨by norm_num, n + 1, ?_⟩, ?_⟩
      · simp [hl, cycleEvents, List.replicate_succ', List.flatten_append,
          List.append_assoc]
      · intro pre hpre
        rcases prefix_snoc pre log _ hpre with hp | rfl
        · exact h2 pre hp
        · simp only [List.count_append, List.count_cons, List.count_nil]
          simp
          omega

/-- The machine invariant holds after any interleaving of actions. -/
lemma run_inv (acts : List Act) :
    CycleLogShape (run acts) ∧ ReadAfterWait (run acts) ∧
      ((run acts).pc = 7 ∨ (run acts).pc = 8 →
        (run acts).log.count Ev.readBuffer < (run acts).log.count Ev.dmaWait) := by
  have main : ∀ (l : List Act) (s : MachState),
      (CycleLogShape s ∧ ReadAfterWait s ∧
        (s.pc = 7 ∨ s.pc = 8 →
          s.log.count Ev.readBuffer < s.log.count Ev.dmaWait)) →
      (CycleLogShape (l.foldl step s) ∧ ReadAfterWait (l.foldl step s) ∧
        ((l.foldl step s).pc = 7 ∨ (l.foldl step s).pc = 8 →
          (l.foldl step s).log.count Ev.readBuffer
            < (l.foldl step s).log.count Ev.dmaWait)) := by
    intro l
    induction l with
    | nil => intro s hs; exact hs
    | cons a l ih =>
      intro s hs
      exact ih (step s a) (step_preserves_inv s a hs.1 hs.2.1 hs.2.2)
  refine main acts init ⟨⟨by norm_num [init], 0, by simp [init]⟩, ?_, by simp [init]⟩
  intro pre hpre
  have hnil : pre = [] := List.prefix_nil.mp (by simpa [init] using hpre)
  simp [hnil]

/-- A tick leaves a flagged state unchanged. -/
lemma foldl_ticks_flagged (n : ℕ) (s : MachState) (h : s.flag = true) :
    (List.replicate n Act.tick).foldl step s = s := by
  induction n generalizing s with
  | zero => rfl
  | succ k ih =>
    rw [List.replicate_succ, List.foldl_cons]
    have hs : step s Act.tick = s := by
      simp [step, alarm_callback]
      cases s
      simp_all
    rw [hs]
    exact ih s h

/-- Any positive number of consecutive ticks from a state amounts to
setting the flag once: fired-while-pending ticks are coalesced. -/
lemma ticks_coalesce (t : ℕ) (s : MachState) (ht : 1 ≤ t) :
    (List.replicate t Act.tick).foldl step s = { s with flag := true } := by
  obtain ⟨k, rfl⟩ := Nat.exists_eq_add_of_le ht
  rw [List.replicate_add, List.foldl_append]
  have h1 : (List.replicate 1 Act.tick).foldl step s = { s with flag := true } := by
    simp [List.replicate, step, alarm_callback]
  rw [h1]
  exact foldl_ticks_flagged k _ rfl

/-- With the flag clear and no further ticks, main-loop steps never begin a
new sampling cycle: the flag stays clear and no `startSampling` event is
appended. -/
lemma main_step_no_start (bs : List ℕ) (s : MachState) (h : s.flag = false) :
    (main_step bs s).flag = false
      ∧ (main_step bs s).log.count Ev.startSampling
          = s.log.count Ev.startSampling := by
  obtain ⟨pc, flag, buf, log⟩ := s
  have hf : flag = false := h
  subst hf
  match pc with
  | 0 => norm_num [main_step]
  | 1 => norm_num [main_step, List.count_append]; decide
  | 2 => norm_num [main_step, List.count_append]; decide
  | 3 => norm_num [main_step, List.count_append]; decide
  | 4 => norm_num [main_step, List.count_append]; decide
  | 5 => norm_num [main_step, List.count_append]; decide
  | 6 => norm_num [main_step, List.count_append]; decide
  | 7 => norm_num [main_step, List.count_append]; decide
  | 8 => norm_num [main_step, List.count_append]; decide
  | 9 => norm_num [main_step, List.count_append]; decide
  | (n + 10) =>
    have hne : ∀ j : ℕ, j < 10 → n + 10 ≠ j := by
      intro j hj
      omega
    simp [main_step, hne 0 (by norm_num), hne 1 (by norm_num),
      hne 2 (by norm_num), hne 3 (by norm_num), hne 4 (by norm_num),
      hne 5 (by norm_num), hne 6 (by norm_num), hne 7 (by norm_num),
      hne 8 (by norm_num), hne 9 (by norm_num)]

/-- Iterated version of `main_step_no_start`. -/
lemma foldl_msteps_no_start (k : ℕ) (bs : List ℕ) (s : MachState)
    (h : s.flag = false) :
    ((List.replicate k (Act.mstep bs)).foldl step s).log.count Ev.startSampling
      = s.log.count Ev.startSampling := by
  induction k generalizing s with
  | zero => rfl
  | succ j ih =>
    rw [List.replicate_succ, List.foldl_cons]
    have hstep := main_step_no_start bs s h
    have := ih (step s (Act.mstep bs)) (by simpa [step] using hstep.1)
    rw [this]
    simpa [step] using hstep.2

/-! ## Claim theorems -/

/-- C1: For every 16-bit raw input `r`, `convert_to_celsius r` equals the
spec formula `27.0 - ((r * (3.3 / 4096)) - 0.706) / 0.001721`; in
particular `convert 0 = 27.0 - (0 - 0.706)/0.001721`. -/
theorem C1_convert_formula (raw : ℕ) (h : raw < 2 ^ 16) :
    convert_to_celsius raw
        = 27 - ((raw : ℚ) * ((33 / 10) / 4096) - 706 / 1000) / (1721 / 1000000)
      ∧ convert_to_celsius 0
        = 27 - ((0 : ℚ) - 706 / 1000) / (1721 / 1000000) := by
  refine ⟨convert_to_celsius_closed raw, ?_⟩
  rw [convert_to_celsius_closed 0]
  norm_num

/-- Witness for C1 at the concrete 16-bit input 2048. -/
theorem C1_convert_formula_witness :
    (2048 : ℕ) < 2 ^ 16
      ∧ (convert_to_celsius 2048
            = 27 - ((2048 : ℚ) * ((33 / 10) / 4096) - 706 / 1000) / (1721 / 1000000)
          ∧ convert_to_celsius 0
            = 27 - ((0 : ℚ) - 706 / 1000) / (1721 / 1000000)) :=
  ⟨by norm_num, C1_convert_formula 2048 (by norm_num)⟩

/-- C2: Each cycle's reported average is the sum of the converted entries
divided by `NUM_SAMPLES`; a buffer of `NUM_SAMPLES` copies of `r` averages
to `convert r`; a buffer alternating `r1, r2` in equal counts averages to
`(convert r1 + convert r2) / 2`. -/
theorem C2_cycle_average (buf : List ℕ) (h : buf.length = NUM_SAMPLES) :
    avg_temp buf = (buf.map convert_to_celsius).sum / (NUM_SAMPLES : ℚ)
  ∧ (∀ r : ℕ, buf = List.replicate NUM_SAMPLES r →
      avg_temp buf = convert_to_celsius r)
  ∧ (∀ r1 r2 : ℕ, buf = (List.replicate 50 [r1, r2]).flatten →
      avg_temp buf = (convert_to_celsius r1 + convert_to_celsius r2) / 2) := by
  refine ⟨by rw [avg_temp, cycle_sum_eq_map_sum], ?_, ?_⟩
  · intro r hr
    rw [hr]
    exact avg_temp_replicate r
  · intro r1 r2 hr
    rw [hr, avg_temp, cycle_sum_flatten_replicate]
    rw [show ((NUM_SAMPLES : ℕ) : ℚ) = 100 from by norm_num [NUM_SAMPLES]]
    push_cast
    ring

/-- Witness for C2 on the concrete buffer of one hundred 7s. -/
theorem C2_cycle_average_witness :
    (List.replicate 100 7).length = NUM_SAMPLES
  ∧ (avg_temp (List.replicate 100 7)
        = ((List.replicate 100 7).map convert_to_celsius).sum / (NUM_SAMPLES : ℚ)
    ∧ (∀ r : ℕ, List.replicate 100 7 = List.replicate NUM_SAMPLES r →
        avg_temp (List.replicate 100 7) = convert_to_celsius r)
    ∧ (∀ r1 r2 : ℕ, List.replicate 100 7 = (List.replicate 50 [r1, r2]).flatten →
        avg_temp (List.replicate 100 7)
          = (convert_to_celsius r1 + convert_to_celsius r2) / 2)) :=
  ⟨by norm_num [NUM_SAMPLES],
    C2_cycle_average (List.replicate 100 7) (by norm_num [NUM_SAMPLES])⟩

/-- C3: For every interleaving of timer ticks and main-loop steps, the log
is a sequence of complete cycles in the exact source order (drain, pause,
FIFO setup, start, DMA arm+start, blocking wait, pause, buffer read,
present) followed by a prefix of the current cycle, and in every temporal
prefix no buffer read occurs before the transfer-completion wait has
returned. -/
theorem C3_cycle_order (acts : List Act) :
    CycleLogShape (run acts) ∧ ReadAfterWait (run acts) :=
  ⟨(run_inv acts).1, (run_inv acts).2.1⟩

/-- C4: the trigger flag coalesces: if the timer fires `t ≥ 2` times before
the main loop observes the flag, then over any number `m` of subsequent
main-loop steps exactly one sampling transition occurs (one for `m ≥ 1`,
none yet for `m = 0`) — never two. -/
theorem C4_trigger_coalescing (t m : ℕ) (bs : List ℕ) (ht : 2 ≤ t) :
    ((run (List.replicate t Act.tick
        ++ List.replicate m (Act.mstep bs))).log).count Ev.startSampling
      = if 1 ≤ m then 1 else 0 := by
  unfold run
  rw [List.foldl_append, ticks_coalesce t init (by omega)]
  cases m with
  | zero => simp [init]
  | succ k =>
    rw [List.replicate_succ, List.foldl_cons]
    have hstep : step { init with flag := true } (Act.mstep bs)
        = { pc := 1, flag := false, buf := [], log := [Ev.startSampling] } := by
      norm_num [step, main_step, init]
    rw [hstep, foldl_msteps_no_start k bs _ rfl]
    simp

/-- Witness for C4: two ticks followed by twelve main-loop steps yield
exactly one sampling transition. -/
theorem C4_trigger_coalescing_witness :
    2 ≤ 2
  ∧ ((run (List.replicate 2 Act.tick
        ++ List.replicate 12 (Act.mstep []))).log).count Ev.startSampling
      = if 1 ≤ 12 then 1 else 0 :=
  ⟨by norm_num, C4_trigger_coalescing 2 12 [] (by norm_num)⟩

/-- C5: the cycle configures the ADC FIFO with threshold 1, no error-bit
capture, no extra shifting, and arms a DMA transfer of exactly
`NUM_SAMPLES = 100` 16-bit words from the fixed (non-incrementing) ADC FIFO
register into the incrementing sample buffer, paced by `DREQ_ADC`, started
immediately. -/
theorem C5_dma_adc_configuration :
    cycle_adc_fifo_setup.en = true
  ∧ cycle_adc_fifo_setup.dreq_en = true
  ∧ cycle_adc_fifo_setup.dreq_thresh = 1
  ∧ cycle_adc_fifo_setup.err_in_fifo = false
  ∧ cycle_adc_fifo_setup.byte_shift = false
  ∧ cfg.transfer_data_size = DmaTransferSize.size16
  ∧ cfg.read_increment = false
  ∧ cfg.write_increment = true
  ∧ cfg.dreq = DREQ_ADC
  ∧ cycle_dma_configure.config = cfg
  ∧ cycle_dma_configure.transfer_count = NUM_SAMPLES
  ∧ cycle_dma_configure.transfer_count = 100
  ∧ cycle_dma_configure.read_addr = DmaAddr.adcFifoReg
  ∧ cycle_dma_configure.write_addr = DmaAddr.sampleBuffer
  ∧ cycle_dma_configure.trigger = true := by
  decide

/-- C6: `convert_to_celsius` is monotonically decreasing in the raw
argument: `r1 < r2` implies `convert r1 > convert r2`. -/
theorem C6_convert_monotone_decreasing (r1 r2 : ℕ) (h : r1 < r2) :
    convert_to_celsius r1 > convert_to_celsius r2 :=
  convert_strict_anti h

/-- Witness for C6 at 100 < 200. -/
theorem C6_convert_monotone_decreasing_witness :
    (100 : ℕ) < 200 ∧ convert_to_celsius 100 > convert_to_celsius 200 :=
  ⟨by norm_num, C6_convert_monotone_decreasing 100 200 (by norm_num)⟩

/-- Counterexample to C7's numeric anchors: `convert 825` is more than
5 °C away from the claimed ≈ 27.9 °C (it is ≈ 51.0 °C), and the average of
one hundred 2048s is more than 0.5 °C away from the claimed ≈ −522.9 °C
(it is ≈ −521.5 °C). -/
theorem C7_counterexample :
    5 < |convert_to_celsius 825 - 279 / 10|
  ∧ 1 / 2 < |avg_temp (List.replicate 100 2048) - (-5229 / 10)| := by
  have h825 : (51 : ℚ) < convert_to_celsius 825 := by
    rw [convert_to_celsius_closed]
    norm_num
  have h2048 : avg_temp (List.replicate 100 2048) = convert_to_celsius 2048 := by
    have h := avg_temp_replicate 2048
    norm_num [NUM_SAMPLES] at h
    exact h
  have hb : (-5216 / 10 : ℚ) < convert_to_celsius 2048 := by
    rw [convert_to_celsius_closed]
    norm_num
  constructor
  · rw [abs_of_pos (by linarith)]
    linarith
  · rw [h2048, abs_of_pos (by linarith)]
    linarith

/-- C7 (amended): the average of one hundred 2048s equals the conversion of
voltage exactly 1.65, i.e. `27 − (1.65 − 0.706)/0.001721 ≈ −521.5` (not
−522.9), and raw 825 gives voltage ≈ 0.6646–0.6647 and temperature
≈ 51.0 °C (not 27.9 °C). -/
theorem C7_amended_values :
    avg_temp (List.replicate 100 2048)
        = 27 - ((33 / 20 : ℚ) - 706 / 1000) / (1721 / 1000000)
  ∧ (2048 : ℚ) * ((33 / 10) / 4096) = 33 / 20
  ∧ (-5216 / 10 : ℚ) < avg_temp (List.replicate 100 2048)
  ∧ avg_temp (List.replicate 100 2048) < -5215 / 10
  ∧ (6646 / 10000 : ℚ) < (825 : ℚ) * ((33 / 10) / 4096)
  ∧ (825 : ℚ) * ((33 / 10) / 4096) < 6647 / 10000
  ∧ (51 : ℚ) < convert_to_celsius 825
  ∧ convert_to_celsius 825 < 511 / 10 := by
  have h2048 : avg_temp (List.replicate 100 2048) = convert_to_celsius 2048 := by
    have h := avg_temp_replicate 2048
    norm_num [NUM_SAMPLES] at h
    exact h
  refine ⟨?_, by norm_num, ?_, ?_, by norm_num, by norm_num, ?_, ?_⟩
  · rw [h2048, convert_to_celsius_closed]
    norm_num
  · rw [h2048, convert_to_celsius_closed]
    norm_num
  · rw [h2048, convert_to_celsius_closed]
    norm_num
  · rw [convert_to_celsius_closed]
    norm_num
  · rw [convert_to_celsius_closed]
    norm_num

/-- C8: `convert_to_celsius` is total and deterministic on every 16-bit
input — each input determines a unique output — and inputs above the
nominal 0–4095 range are accepted without validation, producing an
out-of-range but well-defined output (below every in-range output). -/
theorem C8_convert_total (raw : ℕ) (h : raw < 2 ^ 16) :
    (∃! t : ℚ, convert_to_celsius raw = t)
  ∧ (4095 < raw → convert_to_celsius raw < convert_to_celsius 4095) :=
  ⟨⟨convert_to_celsius raw, rfl, fun y hy => hy.symm⟩,
    fun hgt => convert_strict_anti hgt⟩

/-- Witness for C8 at the out-of-nominal-range input 5000. -/
theorem C8_convert_total_witness :
    (5000 : ℕ) < 2 ^ 16
  ∧ ((∃! t : ℚ, convert_to_celsius 5000 = t)
      ∧ (4095 < 5000 → convert_to_celsius 5000 < convert_to_celsius 4095)) :=
  ⟨by norm_num, C8_convert_total 5000 (by norm_num)⟩

/-- C9: the timer callback's only effect is setting the trigger flag — it
leaves the sample buffer, the I/O event log and the program counter
untouched — it returns `true` ("keep repeating"), and the timer is
registered with the constant 500 ms period. -/
theorem C9_timer_callback_frame (s : MachState) :
    (alarm_callback s).1 = { s with flag := true }
  ∧ (alarm_callback s).1.buf = s.buf
  ∧ (alarm_callback s).1.log = s.log
  ∧ (alarm_callback s).1.pc = s.pc
  ∧ (alarm_callback s).2 = true
  ∧ timer_registration.period_ms = UPDATE_INTERVAL_MS
  ∧ UPDATE_INTERVAL_MS = 500 :=
  ⟨rfl, rfl, rfl, rfl, rfl, rfl, rfl⟩

/-- C10: for every full sample buffer the computed average lies between the
minimum and maximum of `convert_to_celsius` over the entries, and the
buffer-reading step of the cycle leaves the buffer contents unchanged. -/
theorem C10_average_bounds (buf : List ℕ) (h : buf.length = NUM_SAMPLES) :
    (∃ mn ∈ buf.map convert_to_celsius, ∃ mx ∈ buf.map convert_to_celsius,
        (∀ y ∈ buf.map convert_to_celsius, mn ≤ y ∧ y ≤ mx)
        ∧ mn ≤ avg_temp buf ∧ avg_temp buf ≤ mx)
  ∧ (∀ (samples : List ℕ) (s : MachState), s.pc = 8 →
      (main_step samples s).buf = s.buf) := by
  constructor
  · have hne : buf.map convert_to_celsius ≠ [] := by
      intro hc
      have hlen := congrArg List.length hc
      simp [h, NUM_SAMPLES] at hlen
    obtain ⟨mn, hmn, hminle⟩ := exists_le_min _ hne
    obtain ⟨mx, hmx, hlemax⟩ := exists_max_le _ hne
    have hlen : ((buf.map convert_to_celsius).length : ℚ) = 100 := by
      simp [h, NUM_SAMPLES]
    refine ⟨mn, hmn, mx, hmx, fun y hy => ⟨hminle y hy, hlemax y hy⟩, ?_, ?_⟩
    · have hs := mul_length_le_sum _ mn hminle
      rw [hlen] at hs
      rw [avg_temp, cycle_sum_eq_map_sum,
        show ((NUM_SAMPLES : ℕ) : ℚ) = 100 from by norm_num [NUM_SAMPLES],
        le_div_iff₀ (by norm_num : (0:ℚ) < 100)]
      exact hs
    · have hs := sum_le_mul_length _ mx hlemax
      rw [hlen] at hs
      rw [avg_temp, cycle_sum_eq_map_sum,
        show ((NUM_SAMPLES : ℕ) : ℚ) = 100 from by norm_num [NUM_SAMPLES],
        div_le_iff₀ (by norm_num : (0:ℚ) < 100)]
      linarith
  · intro samples s hpc
    obtain ⟨pc, flag, bufS, log⟩ := s
    have hp : pc = 8 := hpc
    subst hp
    norm_num [main_step]

/-- Witness for C10 on the concrete buffer of one hundred 1000s. -/
theorem C10_average_bounds_witness :
    (List.replicate 100 1000).length = NUM_SAMPLES
  ∧ ((∃ mn ∈ (List.replicate 100 1000).map convert_to_celsius,
        ∃ mx ∈ (List.replicate 100 1000).map convert_to_celsius,
          (∀ y ∈ (List.replicate 100 1000).map convert_to_celsius,
              mn ≤ y ∧ y ≤ mx)
          ∧ mn ≤ avg_temp (List.replicate 100 1000)
          ∧ avg_temp (List.replicate 100 1000) ≤ mx)
    ∧ (∀ (samples : List ℕ) (s : MachState), s.pc = 8 →
        (main_step samples s).buf = s.buf)) :=
  ⟨by norm_num [NUM_SAMPLES],
    C10_average_bounds (List.replicate 100 1000) (by norm_num [NUM_SAMPLES])⟩

end DisplayOled
